import Mathlib

/-!
Verification of the ROV QR mission core (`src/QR/qr.py`): the per-tick
object tracker and the mission state machine.

Shallow embedding notes:
* Pixel coordinates are modelled as `Int`.  The source compares Euclidean
  distances (`scipy.spatial.distance.cdist`, floats); here every comparison
  is done on *squared* distances, which is exact and order-isomorphic
  (`sqrt` is strictly monotone, and the gate `D[r,c] > 70` holds iff
  `D²[r,c] > 70²` for integer coordinates).
* Tracker ids are `"QR-n"` strings in the source; they are modelled by the
  number `n` (the value of `next_object_id` at creation).
* Python `dict` iteration order (insertion order, in-place update keeps the
  position) is modelled by an association list `List (Nat × Tracker)`.
* `numpy.argsort` on the row minima is modelled by a deterministic stable
  insertion sort; `numpy.argmin` keeps the first index attaining the
  minimum, as modelled.  Iteration over the Python set `unused_cols`
  (small non-negative ints) is modelled in ascending order.
* The camera, `cv2` preprocessing and the HUD are out of scope: a tick's
  input is the decoded detection list (payload + corner points); a failed
  capture or `ret_qr = False` is the empty list.
-/

namespace ROV

/-- A raw detection as returned by `detector.detectAndDecodeMulti`:
a decoded payload string and the (integer-cast) corner points. -/
structure RawDet where
  data : String
  pts : List (Int × Int)
deriving Repr, DecidableEq

/-- One tick's observation after filtering/centroid computation
(`current_centers[i]`, `current_data[i]`, `current_points[i]`). -/
structure Obs where
  center : Int × Int
  data : String
  pts : List (Int × Int)
deriving Repr, DecidableEq

/-- The per-id tracker tuple `(center, data, points, frames_unseen)`. -/
structure Tracker where
  center : Int × Int
  data : String
  pts : List (Int × Int)
  unseen : Nat
deriving Repr, DecidableEq

/-- Mission states (`current_state` string constants in the source). -/
inductive MState where
  | phase1
  | phase2
  | complete
deriving Repr, DecidableEq

/-- The mutable mission-loop state: `active_trackers` (insertion-ordered),
`processed_ids`, `next_object_id`, `current_state`, `phase_1_votes`,
`phase_1_decision`, `phase_2_decision`. -/
structure St where
  trackers : List (Nat × Tracker)
  processed : List Nat
  nextId : Nat
  state : MState
  votes : List String
  phase1Decision : Option String
  phase2Decision : Option String
deriving Repr, DecidableEq

/-- `VALID_PHASE_1_COMMANDS`. -/
def VALID_PHASE_1_COMMANDS : List String := ["go left", "go right", "go straight"]

/-- `VALID_PHASE_2_COMMANDS`. -/
def VALID_PHASE_2_COMMANDS : List String := ["drop left", "drop right"]

/-- `MAX_DISTANCE = 70`. -/
def MAX_DISTANCE : Int := 70

/-- `MAX_FRAMES_UNSEEN = 20`. -/
def MAX_FRAMES_UNSEEN : Nat := 20

/-- Squared distance gate: `D > MAX_DISTANCE` iff `d2 > gate2`. -/
def gate2 : Int := MAX_DISTANCE * MAX_DISTANCE

/-- Squared Euclidean distance between two pixel points. -/
def d2 (a b : Int × Int) : Int :=
  (a.1 - b.1) * (a.1 - b.1) + (a.2 - b.2) * (a.2 - b.2)

/-- `int(np.mean(xs))`: the float mean of (at most a few) integers is exact
for a 4-point list and `int` truncates toward zero, i.e. `Int.tdiv`. -/
def intMean (xs : List Int) : Int :=
  Int.tdiv (xs.foldl (· + ·) 0) (Int.ofNat xs.length)

/-- Build an observation from a raw detection:
`cx = int(np.mean(pts[:,0]))`, `cy = int(np.mean(pts[:,1]))`. -/
def mkObs (d : RawDet) : Obs :=
  { center := (intMean (d.pts.map Prod.fst), intMean (d.pts.map Prod.snd)),
    data := d.data,
    pts := d.pts }

/-- The `if decoded_info[i]:` filter: only detections with a non-empty
payload become observations (empty string is falsy in Python). -/
def obsOf (dets : List RawDet) : List Obs :=
  dets.filterMap (fun d => if d.data ≠ "" then some (mkObs d) else none)

/-- Placeholder observation for out-of-range indexing (never hit on the
index ranges actually used). -/
def dummyObs : Obs := ⟨(0, 0), "", []⟩

/-- Placeholder tracker entry for out-of-range indexing. -/
def dummyTrk : Nat × Tracker := (0, ⟨(0, 0), "", [], 0⟩)

/-- Centroid of observation (column) `j`. -/
def obsCenter (obs : List Obs) (j : Nat) : Int × Int :=
  (obs.getD j dummyObs).center

/-- Centroid of tracked object (row) `i`. -/
def trkCenter (trs : List (Nat × Tracker)) (i : Nat) : Int × Int :=
  ((trs.getD i dummyTrk).2).center

/-- Entry `D²[i,j]` of the pairwise (squared) distance matrix
`D = dist.cdist(tracker_centers, current_centers)`. -/
def rowDist (trs : List (Nat × Tracker)) (obs : List Obs) (i j : Nat) : Int :=
  d2 (trkCenter trs i) (obsCenter obs j)

/-- `np.argmin` over row `i`: first column index attaining the row minimum. -/
def argminCol (trs : List (Nat × Tracker)) (obs : List Obs) (i : Nat) : Nat :=
  (List.range obs.length).foldl
    (fun best j => if rowDist trs obs i j < rowDist trs obs i best then j else best) 0

/-- `D.min(axis=1)` for row `i` (as a squared distance). -/
def rowMin (trs : List (Nat × Tracker)) (obs : List Obs) (i : Nat) : Int :=
  rowDist trs obs i (argminCol trs obs i)

/-- Stable insertion of `a` in front of the first element `b` with
`k a < k b`. -/
def insertKey (k : Nat → Int) (a : Nat) : List Nat → List Nat
  | [] => [a]
  | b :: bs => if k a < k b then a :: b :: bs else b :: insertKey k a bs

/-- Stable sort of index list by key (models `argsort` of the row minima). -/
def sortByKey (k : Nat → Int) (l : List Nat) : List Nat :=
  l.foldr (insertKey k) []

/-- `rows = D.min(axis=1).argsort()`. -/
def sortedRows (trs : List (Nat × Tracker)) (obs : List Obs) : List Nat :=
  sortByKey (rowMin trs obs) (List.range trs.length)

/-- `zip(rows, cols)` where `cols = D.argmin(axis=1)[rows]`. -/
def matchPairs (trs : List (Nat × Tracker)) (obs : List Obs) : List (Nat × Nat) :=
  (sortedRows trs obs).map (fun i => (i, argminCol trs obs i))

/-- One step of the greedy matching loop body:
skip if `row in used_rows or col in used_cols`, skip if
`D[row, col] > MAX_DISTANCE`, otherwise commit and mark used. -/
def greedyStep (D : Nat → Nat → Int)
    (acc : List (Nat × Nat) × List Nat × List Nat) (rc : Nat × Nat) :
    List (Nat × Nat) × List Nat × List Nat :=
  if rc.1 ∈ acc.2.1 ∨ rc.2 ∈ acc.2.2 then acc
  else if gate2 < D rc.1 rc.2 then acc
  else (acc.1 ++ [rc], acc.2.1 ++ [rc.1], acc.2.2 ++ [rc.2])

/-- The whole greedy loop: committed pairs, `used_rows`, `used_cols`. -/
def greedyRes (trs : List (Nat × Tracker)) (obs : List Obs) :
    List (Nat × Nat) × List Nat × List Nat :=
  (matchPairs trs obs).foldl (greedyStep (rowDist trs obs)) ([], [], [])

/-- The committed (row, col) pairs of this tick. -/
def commits (trs : List (Nat × Tracker)) (obs : List Obs) : List (Nat × Nat) :=
  (greedyRes trs obs).1

/-- `used_cols` after the greedy loop. -/
def usedColsOf (trs : List (Nat × Tracker)) (obs : List Obs) : List Nat :=
  (greedyRes trs obs).2.2

/-- A fresh tracker tuple built from an observation (`frames_unseen = 0`). -/
def trackerOfObs (o : Obs) : Tracker := ⟨o.center, o.data, o.pts, 0⟩

/-- Unmatched-row handling: `unseen += 1`; destroyed if it now exceeds
`MAX_FRAMES_UNSEEN`, otherwise retained with the incremented counter. -/
def ageOrDrop (id : Nat) (t : Tracker) : Option (Nat × Tracker) :=
  if MAX_FRAMES_UNSEEN < t.unseen + 1 then none
  else some (id, { t with unseen := t.unseen + 1 })

/-- Register a list of observations as new trackers with consecutive fresh
ids (`QR-{next_object_id}`; the dict appends them in order). -/
def registerNew (start : List (Nat × Tracker)) (nid : Nat) (os : List Obs) :
    List (Nat × Tracker) × Nat :=
  os.foldl (fun acc o => (acc.1 ++ [(acc.2, trackerOfObs o)], acc.2 + 1)) (start, nid)

/-- The full per-tick tracker update (section "Tracker Update" of the
source): returns the new `active_trackers` and `next_object_id`. -/
def trackerUpdate (trs : List (Nat × Tracker)) (nid : Nat) (obs : List Obs) :
    List (Nat × Tracker) × Nat :=
  if trs.isEmpty then
    registerNew [] nid obs
  else if obs.isEmpty then
    (trs.filterMap (fun p => ageOrDrop p.1 p.2), nid)
  else
    let cs := commits trs obs
    let kept := trs.enum.filterMap (fun p =>
      match cs.find? (fun rc => rc.1 == p.1) with
      | some rc => some (p.2.1, trackerOfObs (obs.getD rc.2 dummyObs))
      | none => ageOrDrop p.2.1 p.2.2)
    let newCols := (List.range obs.length).filter (fun c => c ∉ usedColsOf trs obs)
    registerNew kept nid (newCols.map (fun c => obs.getD c dummyObs))

/-- `objects_to_process`: trackers whose id is not in `processed_ids`,
in tracker-dict iteration order. -/
def unprocessedOf (s : St) : List (Nat × String) :=
  s.trackers.filterMap (fun p =>
    if p.1 ∈ s.processed then none else some (p.1, p.2.data))

/-- `processed_ids.add(id)` (set add, order-insensitive membership). -/
def addProc (ps : List Nat) (id : Nat) : List Nat :=
  if id ∈ ps then ps else ps ++ [id]

/-- Distinct values of a list in first-occurrence order: the key order of
`collections.Counter(l)` (a dict keyed by first insertion). -/
def firstOccs : List String → List String
  | [] => []
  | v :: vs => v :: (firstOccs vs).filter (fun w => w ≠ v)

/-- The fold underlying `heapq.nlargest(1, ...)` / `max` with a key:
keeps the current best, replacing it only on a strictly larger count,
hence returns the first maximum. -/
def pickMax (cnt : String → Nat) (b : String) (ds : List String) : String :=
  ds.foldl (fun x v => if cnt x < cnt v then v else x) b

/-- `Counter(l).most_common(1)[0][0]`: the first-inserted value of maximal
multiplicity (CPython `nlargest(1)` reduces to `max`, which keeps the
earliest maximal element). -/
def counterMostCommon (l : List String) : Option String :=
  match firstOccs l with
  | [] => none
  | d :: ds => some (pickMax (fun v => l.count v) d ds)

/-- The phase-1 vote loop over `objects_to_process`: a valid payload is
marked processed and appended to the ledger, anything else is only logged. -/
def phase1Scan (s : St) (objs : List (Nat × String)) : St :=
  objs.foldl (fun st ob =>
    if ob.2 ∈ VALID_PHASE_1_COMMANDS then
      { st with processed := addProc st.processed ob.1, votes := st.votes ++ [ob.2] }
    else st) s

/-- The state-machine section of a tick (runs after the tracker update). -/
def stateStep (s : St) : St :=
  let objs := unprocessedOf s
  match s.state with
  | MState.phase1 =>
      let s1 := phase1Scan s objs
      if s1.votes.length = 5 then
        { s1 with
          phase1Decision := counterMostCommon s1.votes,
          state := MState.phase2,
          trackers := [],
          processed := [],
          nextId := 1 }
      else s1
  | MState.phase2 =>
      match objs with
      | [] => s
      | (id, data) :: _ =>
          if data ∈ VALID_PHASE_2_COMMANDS then
            { s with
              processed := addProc s.processed id,
              phase2Decision := some data,
              state := MState.complete }
          else s
  | MState.complete => s

/-- The detection + tracking part of a tick. -/
def trackStage (s : St) (dets : List RawDet) : St :=
  let r := trackerUpdate s.trackers s.nextId (obsOf dets)
  { s with trackers := r.1, nextId := r.2 }

/-- The drawing / HUD part of a tick: touches no mission state. -/
def renderStage (s : St) : St := s

/-- One full successful tick of the main mission loop. -/
def tick (s : St) (dets : List RawDet) : St :=
  renderStage (stateStep (trackStage s dets))

/-- The stages of one tick, in execution order. -/
def tickStages : List (St → List RawDet → St) :=
  [trackStage, fun s _ => stateStep s, fun s _ => renderStage s]

/-- A tick in which an unexpected exception is raised after the first `k`
stages completed: the `except Exception` handler at the bottom of the loop
logs the error and continues with whatever state exists at that point. -/
def runTickFaulty (s : St) (dets : List RawDet) (k : Nat) : St :=
  (tickStages.take k).foldl (fun st f => f st dets) s

/-- The process-start state of the mission loop. -/
def init : St := ⟨[], [], 1, MState.phase1, [], none, none⟩

/-- Run a sequence of ticks. -/
def runList (s : St) (l : List (List RawDet)) : St :=
  l.foldl tick s

/-- Convenience: a detection whose four corners coincide, so its centroid
is exactly the given point. -/
def det (x y : Int) (s : String) : RawDet :=
  ⟨s, [(x, y), (x, y), (x, y), (x, y)]⟩

/-- The spec's wording of the greedy commit rule, for comparison with the
source-derived fold: walking the ordered candidate pairs, "commit the pair
(mark row and column used) only if neither the row nor the column has
already been used this tick, AND the distance is ≤ MAX_DISTANCE". -/
def specCommitRule (D : Nat → Nat → Int) :
    List (Nat × Nat) → List Nat → List Nat → List (Nat × Nat)
  | [], _, _ => []
  | rc :: rest, usedR, usedC =>
    if rc.1 ∉ usedR ∧ rc.2 ∉ usedC ∧ D rc.1 rc.2 ≤ gate2 then
      rc :: specCommitRule D rest (rc.1 :: usedR) (rc.2 :: usedC)
    else
      specCommitRule D rest usedR usedC

/-- Iterate the tracker update over `k` consecutive ticks with an empty
observation list. -/
def runEmptyTicks (trs : List (Nat × Tracker)) (nid : Nat) : Nat → List (Nat × Tracker)
  | 0 => trs
  | k + 1 => (trackerUpdate (runEmptyTicks trs nid k) nid []).1

/-- Demo state for the expiry boundary with other observations present:
tracker 1 at the origin never matches, tracker 2 at (500, 0) matches the
per-tick observation exactly. -/
def expiryDemoSt : St :=
  { init with
    trackers := [(1, ⟨(0, 0), "x", [], 0⟩), (2, ⟨(500, 0), "y", [], 0⟩)],
    nextId := 3 }

/-- The per-tick detection used by the expiry demo. -/
def expiryDemoDet : List RawDet := [det 500 0 "y"]

/-- A phase-1 state four accepted votes in. -/
def fourVotesSt : St :=
  { init with votes := ["go left", "go left", "go left", "go left"] }

/-- A phase-2 state holding one unprocessed tracked object with a valid
drop payload. -/
def phase2DemoSt : St :=
  { init with
    state := MState.phase2,
    trackers := [(1, ⟨(0, 0), "drop left", [], 0⟩)],
    nextId := 2 }

/-- A completed-mission state with both decisions stored. -/
def completeDemoSt : St :=
  { init with
    state := MState.complete,
    phase1Decision := some "go left",
    phase2Decision := some "drop left" }

/-- Tick inputs for the ledger-overflow run: three ticks, each presenting
two fresh, far-apart markers with valid phase-1 payloads. -/
def overflowRun : List (List RawDet) :=
  [[det 0 0 "go left", det 1000 0 "go left"],
   [det 2000 0 "go left", det 3000 0 "go left"],
   [det 4000 0 "go left", det 5000 0 "go left"]]

/-- Tick inputs for the expire-and-revote run: one detection, then 21
empty ticks (the marker expires), then the same marker re-detected. -/
def revoteRun : List (List RawDet) :=
  [[det 0 0 "go left"]] ++ List.replicate 21 [] ++ [[det 0 0 "go left"]]

/-- Demo tracker set for the greedy-matching witness. -/
def greedyDemoTrs : List (Nat × Tracker) := [(1, ⟨(0, 0), "go left", [], 5⟩)]

/-- Demo observation list for the greedy-matching witness (distance 5 from
the demo tracker, inside the gate). -/
def greedyDemoObs : List Obs := [⟨(3, 4), "x", []⟩]

/-! ## Helper lemmas -/

theorem trackStage_state (s : St) (dets : List RawDet) :
    (trackStage s dets).state = s.state := rfl

theorem trackStage_processed (s : St) (dets : List RawDet) :
    (trackStage s dets).processed = s.processed := rfl

theorem trackStage_votes (s : St) (dets : List RawDet) :
    (trackStage s dets).votes = s.votes := rfl

theorem trackStage_phase1Decision (s : St) (dets : List RawDet) :
    (trackStage s dets).phase1Decision = s.phase1Decision := rfl

theorem trackStage_phase2Decision (s : St) (dets : List RawDet) :
    (trackStage s dets).phase2Decision = s.phase2Decision := rfl

theorem phase1Scan_cons (s : St) (ob : Nat × String) (objs : List (Nat × String)) :
    phase1Scan s (ob :: objs) =
      phase1Scan
        (if ob.2 ∈ VALID_PHASE_1_COMMANDS then
          { s with processed := addProc s.processed ob.1, votes := s.votes ++ [ob.2] }
        else s) objs := rfl

/-- The phase-1 vote loop only touches `processed` and `votes`, and it only
ever appends to the vote ledger. -/
theorem phase1Scan_spec (objs : List (Nat × String)) (s : St) :
    (phase1Scan s objs).state = s.state ∧
    (phase1Scan s objs).trackers = s.trackers ∧
    (phase1Scan s objs).nextId = s.nextId ∧
    (phase1Scan s objs).phase1Decision = s.phase1Decision ∧
    (phase1Scan s objs).phase2Decision = s.phase2Decision ∧
    ∃ new, (phase1Scan s objs).votes = s.votes ++ new := by
  induction objs generalizing s with
  | nil => exact ⟨rfl, rfl, rfl, rfl, rfl, [], by simp [phase1Scan]⟩
  | cons ob rest ih =>
    rw [phase1Scan_cons]
    by_cases h : ob.2 ∈ VALID_PHASE_1_COMMANDS
    · rw [if_pos h]
      obtain ⟨h1, h2, h3, h4, h5, new, h6⟩ :=
        ih { s with processed := addProc s.processed ob.1, votes := s.votes ++ [ob.2] }
      exact ⟨h1, h2, h3, h4, h5, [ob.2] ++ new, by simpa [List.append_assoc] using h6⟩
    · rw [if_neg h]; exact ih s

theorem stateStep_phase1 (s : St) (h : s.state = MState.phase1) :
    stateStep s =
      (if (phase1Scan s (unprocessedOf s)).votes.length = 5 then
        { phase1Scan s (unprocessedOf s) with
          phase1Decision := counterMostCommon (phase1Scan s (unprocessedOf s)).votes,
          state := MState.phase2,
          trackers := [],
          processed := [],
          nextId := 1 }
      else phase1Scan s (unprocessedOf s)) := by
  unfold stateStep
  rw [h]

theorem stateStep_complete (s : St) (h : s.state = MState.complete) :
    stateStep s = s := by
  unfold stateStep
  rw [h]

/-- Registering observations appends them with consecutive fresh ids. -/
theorem registerNew_fst (os : List Obs) (start : List (Nat × Tracker)) (nid : Nat) :
    (registerNew start nid os).1 =
      start ++ (os.enumFrom nid).map (fun p => (p.1, trackerOfObs p.2)) := by
  induction os generalizing start nid with
  | nil => simp [registerNew]
  | cons o os ih =>
    show (registerNew (start ++ [(nid, trackerOfObs o)]) (nid + 1) os).1 = _
    rw [ih]
    simp [List.enumFrom, List.append_assoc]

/-- Registering observations advances the id counter by their number. -/
theorem registerNew_snd (os : List Obs) (start : List (Nat × Tracker)) (nid : Nat) :
    (registerNew start nid os).2 = nid + os.length := by
  induction os generalizing start nid with
  | nil => simp [registerNew]
  | cons o os ih =>
    show (registerNew (start ++ [(nid, trackerOfObs o)]) (nid + 1) os).2 = _
    rw [ih]
    simp [List.length_cons]
    omega

/-- A single fresh tracker under consecutive empty-observation ticks:
alive with `unseen = k` for `k ≤ MAX_FRAMES_UNSEEN`, destroyed after. -/
theorem runEmptyTicks_single (id nid : Nat) (c : Int × Int) (dd : String)
    (p : List (Int × Int)) :
    ∀ k, runEmptyTicks [(id, ⟨c, dd, p, 0⟩)] nid k =
      if k ≤ MAX_FRAMES_UNSEEN then [(id, ⟨c, dd, p, k⟩)] else [] := by
  intro k
  induction k with
  | zero => simp [runEmptyTicks, MAX_FRAMES_UNSEEN]
  | succ k ih =>
    rw [runEmptyTicks, ih]
    by_cases hk : k ≤ MAX_FRAMES_UNSEEN
    · rw [if_pos hk]
      by_cases hk1 : k + 1 ≤ MAX_FRAMES_UNSEEN
      · rw [if_pos hk1]
        have hno : ¬ (MAX_FRAMES_UNSEEN < k + 1) := by omega
        simp [trackerUpdate, ageOrDrop, hno]
      · rw [if_neg hk1]
        have hyes : MAX_FRAMES_UNSEEN < k + 1 := by omega
        simp [trackerUpdate, ageOrDrop, hyes]
    · rw [if_neg hk]
      rw [if_neg (by omega : ¬ (k + 1 ≤ MAX_FRAMES_UNSEEN))]
      simp [trackerUpdate, registerNew]

theorem mem_enum_of_get? {α : Type} {l : List α} {i : Nat} {a : α}
    (h : l.get? i = some a) : (i, a) ∈ l.enum := by
  rw [List.get?_eq_some] at h
  obtain ⟨hi, hg⟩ := h
  have hlen : i < l.enum.length := by simpa [List.enum_length] using hi
  have hmem := List.getElem_mem hlen
  rwa [List.getElem_enum, show l[i] = a from by rw [← hg, List.get_eq_getElem]] at hmem

/-- A row that the greedy matcher left uncommitted is aged by one frame
and retained when still within the unseen budget. -/
theorem trackerUpdate_unmatched_row (trs : List (Nat × Tracker)) (nid : Nat)
    (obs : List Obs) (i id : Nat) (t : Tracker)
    (hobs : ¬ obs.isEmpty) (hget : trs.get? i = some (id, t))
    (hun : i ∉ (commits trs obs).map Prod.fst)
    (hlive : t.unseen + 1 ≤ MAX_FRAMES_UNSEEN) :
    (id, { t with unseen := t.unseen + 1 }) ∈ (trackerUpdate trs nid obs).1 := by
  have htrs : ¬ trs.isEmpty := by
    cases trs with
    | nil => simp at hget
    | cons a l => simp
  have henum : (i, (id, t)) ∈ trs.enum := mem_enum_of_get? hget
  have hfind : (commits trs obs).find? (fun rc => rc.1 == i) = none := by
    rw [List.find?_eq_none]
    intro rc hrc
    simp only [beq_iff_eq]
    intro hEq
    exact hun (List.mem_map.mpr ⟨rc, hrc, hEq⟩)
  simp only [trackerUpdate, Bool.not_eq_true] at htrs hobs ⊢
  rw [if_neg (by simp [htrs]), if_neg (by simp [hobs])]
  rw [registerNew_fst]
  apply List.mem_append_left
  apply List.mem_filterMap.mpr
  refine ⟨(i, (id, t)), henum, ?_⟩
  simp only [hfind]
  simp [ageOrDrop, Nat.not_lt.mpr hlive]

/-- The id counter never decreases across a tracker update. -/
theorem trackerUpdate_snd_ge (trs : List (Nat × Tracker)) (nid : Nat) (obs : List Obs) :
    nid ≤ (trackerUpdate trs nid obs).2 := by
  simp only [trackerUpdate]
  split_ifs with h1 h2
  · rw [registerNew_snd]; omega
  · exact Nat.le_refl nid
  · rw [registerNew_snd]; omega

theorem enum_snd_mem {α : Type} {l : List α} {a : Nat × α} (h : a ∈ l.enum) : a.2 ∈ l := by
  rcases a with ⟨ai, ax⟩
  have h' : (ai, ax) ∈ l.enumFrom 0 := h
  obtain ⟨-, hlt, hEq⟩ := List.mem_enumFrom h'
  show ax ∈ l
  rw [hEq]
  exact List.getElem_mem (by omega)

theorem ageOrDrop_some_fst {id : Nat} {t : Tracker} {pq : Nat × Tracker}
    (h : ageOrDrop id t = some pq) : pq.1 = id := by
  unfold ageOrDrop at h
  by_cases hc : MAX_FRAMES_UNSEEN < t.unseen + 1
  · rw [if_pos hc] at h; cases h
  · rw [if_neg hc] at h
    obtain rfl := Option.some.inj h
    rfl

/-- Every id in an updated tracker set is either an id of a pre-existing
tracker, or at least the pre-update id counter (i.e. fresh). -/
theorem trackerUpdate_ids (trs : List (Nat × Tracker)) (nid : Nat) (obs : List Obs)
    (pq : Nat × Tracker) (hm : pq ∈ (trackerUpdate trs nid obs).1) :
    pq.1 ∈ trs.map Prod.fst ∨ nid ≤ pq.1 := by
  simp only [trackerUpdate] at hm
  split_ifs at hm with h1 h2
  · rw [registerNew_fst] at hm
    simp only [List.nil_append] at hm
    obtain ⟨q, hq, hEq⟩ := List.mem_map.mp hm
    rcases q with ⟨qi, qo⟩
    obtain ⟨hle, -, -⟩ := List.mem_enumFrom hq
    right
    rw [← hEq]
    exact hle
  · obtain ⟨a, ha, hf⟩ := List.mem_filterMap.mp hm
    left
    exact List.mem_map.mpr ⟨a, ha, (ageOrDrop_some_fst hf).symm⟩
  · rw [registerNew_fst] at hm
    rcases List.mem_append.mp hm with hk | hnew
    · obtain ⟨a, ha, hf⟩ := List.mem_filterMap.mp hk
      left
      have ha2 : a.2 ∈ trs := enum_snd_mem ha
      rcases hfind : (commits trs obs).find? (fun rc => rc.1 == a.1) with _ | rc
      · rw [hfind] at hf
        exact List.mem_map.mpr ⟨a.2, ha2, (ageOrDrop_some_fst hf).symm⟩
      · rw [hfind] at hf
        obtain rfl := Option.some.inj hf
        exact List.mem_map.mpr ⟨a.2, ha2, rfl⟩
    · obtain ⟨q, hq, hEq⟩ := List.mem_map.mp hnew
      rcases q with ⟨qi, qo⟩
      obtain ⟨hle, -, -⟩ := List.mem_enumFrom hq
      right
      rw [← hEq]
      exact hle

/-- `firstOccs` keeps exactly the members of the list. -/
theorem firstOccs_mem : ∀ (l : List String) (a : String), a ∈ firstOccs l ↔ a ∈ l := by
  intro l
  induction l with
  | nil => simp [firstOccs]
  | cons v vs ih =>
    intro a
    simp only [firstOccs, List.mem_cons, List.mem_filter, decide_eq_true_eq]
    constructor
    · rintro (rfl | ⟨h1, h2⟩)
      · exact Or.inl rfl
      · exact Or.inr ((ih a).mp h1)
    · rintro (rfl | h)
      · exact Or.inl rfl
      · by_cases hv : a = v
        · exact Or.inl hv
        · exact Or.inr ⟨(ih a).mpr h, hv⟩

/-- `firstOccs` lists values in strictly increasing first-occurrence
position. -/
theorem firstOccs_pairwise : ∀ l : List String,
    (firstOccs l).Pairwise (fun a b => l.indexOf a < l.indexOf b) := by
  intro l
  induction l with
  | nil => simp [firstOccs]
  | cons v vs ih =>
    rw [firstOccs, List.pairwise_cons]
    constructor
    · intro b hb
      rw [List.mem_filter] at hb
      obtain ⟨hbmem, hbne⟩ := hb
      have hbne' : b ≠ v := by simpa using hbne
      rw [List.indexOf_cons_self, List.indexOf_cons_ne _ (Ne.symm hbne')]
      exact Nat.succ_pos _
    · have hp := ih.filter (fun w => decide (w ≠ v))
      refine List.Pairwise.imp_of_mem ?_ hp
      intro a b ha hb hR
      rw [List.mem_filter] at ha hb
      have ha' : a ≠ v := by simpa using ha.2
      have hb' : b ≠ v := by simpa using hb.2
      rw [List.indexOf_cons_ne _ (Ne.symm ha'), List.indexOf_cons_ne _ (Ne.symm hb')]
      exact Nat.succ_lt_succ hR

/-- The strict-improvement fold keeps the first element attaining the
maximal count: its count dominates, and any tie sits no earlier. -/
theorem pickMax_spec (cnt : String → Nat) (idx : String → Nat) :
    ∀ (ds : List String) (b : String),
      (b :: ds).Pairwise (fun a c => idx a < idx c) →
      pickMax cnt b ds ∈ b :: ds ∧
      (∀ v ∈ b :: ds, cnt v ≤ cnt (pickMax cnt b ds)) ∧
      (∀ v ∈ b :: ds, cnt v = cnt (pickMax cnt b ds) → idx (pickMax cnt b ds) ≤ idx v) := by
  intro ds
  induction ds with
  | nil =>
    intro b hp
    refine ⟨List.mem_singleton.mpr rfl, ?_, ?_⟩
    · intro v hv
      rw [List.mem_singleton] at hv
      subst hv
      exact Nat.le_refl _
    · intro v hv hc
      rw [List.mem_singleton] at hv
      subst hv
      exact Nat.le_refl _
  | cons d ds ih =>
    intro b hp
    have hstep : pickMax cnt b (d :: ds) = pickMax cnt (if cnt b < cnt d then d else b) ds := rfl
    rw [List.pairwise_cons] at hp
    obtain ⟨hb, hp2⟩ := hp
    have hp2' := hp2
    rw [List.pairwise_cons] at hp2'
    obtain ⟨hd, hp3⟩ := hp2'
    by_cases hbd : cnt b < cnt d
    · rw [hstep, if_pos hbd]
      obtain ⟨hmem, hmax, htie⟩ := ih d hp2
      refine ⟨List.mem_cons_of_mem b hmem, ?_, ?_⟩
      · intro v hv
        rcases List.mem_cons.mp hv with rfl | hv2
        · exact Nat.le_of_lt (Nat.lt_of_lt_of_le hbd (hmax d (List.mem_cons_self d ds)))
        · exact hmax v hv2
      · intro v hv hc
        rcases List.mem_cons.mp hv with rfl | hv2
        · exfalso
          have := hmax d (List.mem_cons_self d ds)
          omega
        · exact htie v hv2 hc
    · rw [hstep, if_neg hbd]
      have hp' : (b :: ds).Pairwise (fun a c => idx a < idx c) := by
        rw [List.pairwise_cons]
        exact ⟨fun a' ha' => hb a' (List.mem_cons_of_mem d ha'), hp3⟩
      obtain ⟨hmem, hmax, htie⟩ := ih b hp'
      refine ⟨?_, ?_, ?_⟩
      · rcases List.mem_cons.mp hmem with h | h
        · exact List.mem_cons.mpr (Or.inl h)
        · exact List.mem_cons_of_mem b (List.mem_cons_of_mem d h)
      · intro v hv
        rcases List.mem_cons.mp hv with rfl | hv2
        · exact hmax v (List.mem_cons_self v ds)
        · rcases List.mem_cons.mp hv2 with rfl | hv3
          · have h1 : cnt b ≤ cnt (pickMax cnt b ds) := hmax b (List.mem_cons_self b ds)
            omega
          · exact hmax v (List.mem_cons_of_mem b hv3)
      · intro v hv hc
        rcases List.mem_cons.mp hv with rfl | hv2
        · exact htie v (List.mem_cons_self v ds) hc
        · rcases List.mem_cons.mp hv2 with rfl | hv3
          · have h1 : cnt b ≤ cnt (pickMax cnt b ds) := hmax b (List.mem_cons_self b ds)
            have h2 : cnt b = cnt (pickMax cnt b ds) := by omega
            have h3 := htie b (List.mem_cons_self b ds) h2
            have h4 : idx b < idx v := hb v (List.mem_cons_self v ds)
            omega
          · exact htie v (List.mem_cons_of_mem b hv3) hc

theorem insertKey_perm (k : Nat → Int) (a : Nat) :
    ∀ l : List Nat, (insertKey k a l).Perm (a :: l) := by
  intro l
  induction l with
  | nil => exact List.Perm.refl _
  | cons b bs ih =>
    rw [insertKey]
    by_cases h : k a < k b
    · rw [if_pos h]
    · rw [if_neg h]
      exact (List.Perm.cons b ih).trans (List.Perm.swap a b bs)

theorem insertKey_sorted (k : Nat → Int) (a : Nat) :
    ∀ l : List Nat, l.Pairwise (fun x y => k x ≤ k y) →
      (insertKey k a l).Pairwise (fun x y => k x ≤ k y) := by
  intro l
  induction l with
  | nil => intro h; simp [insertKey]
  | cons b bs ih =>
    intro h
    rw [List.pairwise_cons] at h
    obtain ⟨hb, hbs⟩ := h
    rw [insertKey]
    by_cases hab : k a < k b
    · rw [if_pos hab, List.pairwise_cons]
      constructor
      · intro y hy
        rcases List.mem_cons.mp hy with rfl | hy2
        · exact le_of_lt hab
        · exact le_of_lt (lt_of_lt_of_le hab (hb y hy2))
      · exact List.pairwise_cons.mpr ⟨hb, hbs⟩
    · rw [if_neg hab, List.pairwise_cons]
      constructor
      · intro y hy
        have hy' : y ∈ a :: bs := (insertKey_perm k a bs).mem_iff.mp hy
        rcases List.mem_cons.mp hy' with rfl | hy2
        · exact le_of_not_lt hab
        · exact hb y hy2
      · exact ih hbs

theorem sortByKey_perm (k : Nat → Int) :
    ∀ l : List Nat, (sortByKey k l).Perm l := by
  intro l
  induction l with
  | nil => exact List.Perm.refl _
  | cons x xs ih =>
    have hstep : sortByKey k (x :: xs) = insertKey k x (sortByKey k xs) := rfl
    rw [hstep]
    exact (insertKey_perm k x (sortByKey k xs)).trans (List.Perm.cons x ih)

theorem sortByKey_sorted (k : Nat → Int) :
    ∀ l : List Nat, (sortByKey k l).Pairwise (fun x y => k x ≤ k y) := by
  intro l
  induction l with
  | nil => simp [sortByKey]
  | cons x xs ih =>
    exact insertKey_sorted k x (sortByKey k xs) ih

theorem foldl_min_le (f : Nat → Int) :
    ∀ (js : List Nat) (b : Nat),
      f (js.foldl (fun x v => if f v < f x then v else x) b) ≤ f b ∧
      ∀ j ∈ js, f (js.foldl (fun x v => if f v < f x then v else x) b) ≤ f j := by
  intro js
  induction js with
  | nil => intro b; exact ⟨le_refl _, by simp⟩
  | cons v js ih =>
    intro b
    have hstep : (v :: js).foldl (fun x w => if f w < f x then w else x) b =
        js.foldl (fun x w => if f w < f x then w else x) (if f v < f b then v else b) := rfl
    rw [hstep]
    by_cases hvb : f v < f b
    · rw [if_pos hvb]
      obtain ⟨h1, h2⟩ := ih v
      refine ⟨le_of_lt (lt_of_le_of_lt h1 hvb), ?_⟩
      intro j hj
      rcases List.mem_cons.mp hj with rfl | hj2
      · exact h1
      · exact h2 j hj2
    · rw [if_neg hvb]
      obtain ⟨h1, h2⟩ := ih b
      refine ⟨h1, ?_⟩
      intro j hj
      rcases List.mem_cons.mp hj with rfl | hj2
      · exact le_trans h1 (le_of_not_lt hvb)
      · exact h2 j hj2

theorem argminCol_min (trs : List (Nat × Tracker)) (obs : List Obs) (i : Nat) :
    ∀ j < obs.length, rowDist trs obs i (argminCol trs obs i) ≤ rowDist trs obs i j := by
  intro j hj
  exact (foldl_min_le (rowDist trs obs i) (List.range obs.length) 0).2 j
    (List.mem_range.mpr hj)

theorem greedyFold_eq_spec (D : Nat → Nat → Int) :
    ∀ (pairs : List (Nat × Nat)) (c0 : List (Nat × Nat)) (uR uC uR' uC' : List Nat),
      (∀ x, x ∈ uR ↔ x ∈ uR') → (∀ x, x ∈ uC ↔ x ∈ uC') →
      (pairs.foldl (greedyStep D) (c0, uR, uC)).1 = c0 ++ specCommitRule D pairs uR' uC' := by
  intro pairs
  induction pairs with
  | nil =>
    intro c0 uR uC uR' uC' hR hC
    simp [specCommitRule]
  | cons rc rest ih =>
    intro c0 uR uC uR' uC' hR hC
    show (rest.foldl (greedyStep D) (greedyStep D (c0, uR, uC) rc)).1 = _
    rw [specCommitRule]
    have hstep : greedyStep D (c0, uR, uC) rc =
        if rc.1 ∈ uR ∨ rc.2 ∈ uC then (c0, uR, uC)
        else if gate2 < D rc.1 rc.2 then (c0, uR, uC)
        else (c0 ++ [rc], uR ++ [rc.1], uC ++ [rc.2]) := rfl
    rw [hstep]
    by_cases h1 : rc.1 ∈ uR ∨ rc.2 ∈ uC
    · rw [if_pos h1]
      have hcond : ¬ (rc.1 ∉ uR' ∧ rc.2 ∉ uC' ∧ D rc.1 rc.2 ≤ gate2) := by
        rcases h1 with h | h
        · intro hc; exact hc.1 ((hR rc.1).mp h)
        · intro hc; exact hc.2.1 ((hC rc.2).mp h)
      rw [if_neg hcond]
      exact ih c0 uR uC uR' uC' hR hC
    · rw [if_neg h1]
      push_neg at h1
      by_cases h2 : gate2 < D rc.1 rc.2
      · rw [if_pos h2]
        have hcond : ¬ (rc.1 ∉ uR' ∧ rc.2 ∉ uC' ∧ D rc.1 rc.2 ≤ gate2) := by
          intro hc
          exact absurd hc.2.2 (not_le.mpr h2)
        rw [if_neg hcond]
        exact ih c0 uR uC uR' uC' hR hC
      · rw [if_neg h2]
        have hcond : rc.1 ∉ uR' ∧ rc.2 ∉ uC' ∧ D rc.1 rc.2 ≤ gate2 :=
          ⟨fun hc => h1.1 ((hR rc.1).mpr hc), fun hc => h1.2 ((hC rc.2).mpr hc),
            le_of_not_lt h2⟩
        rw [if_pos hcond]
        have hR2 : ∀ x, x ∈ uR ++ [rc.1] ↔ x ∈ rc.1 :: uR' := by
          intro x
          simp [hR x, or_comm]
        have hC2 : ∀ x, x ∈ uC ++ [rc.2] ↔ x ∈ rc.2 :: uC' := by
          intro x
          simp [hC x, or_comm]
        rw [ih (c0 ++ [rc]) (uR ++ [rc.1]) (uC ++ [rc.2]) (rc.1 :: uR') (rc.2 :: uC') hR2 hC2]
        simp

theorem commits_eq_spec (trs : List (Nat × Tracker)) (obs : List Obs) :
    commits trs obs = specCommitRule (rowDist trs obs) (matchPairs trs obs) [] [] := by
  have h := greedyFold_eq_spec (rowDist trs obs) (matchPairs trs obs) [] [] [] [] []
    (fun x => Iff.rfl) (fun x => Iff.rfl)
  simpa [commits, greedyRes] using h

theorem specCommitRule_subset (D : Nat → Nat → Int) :
    ∀ (pairs : List (Nat × Nat)) (uR uC : List Nat) (rc : Nat × Nat),
      rc ∈ specCommitRule D pairs uR uC → rc ∈ pairs := by
  intro pairs
  induction pairs with
  | nil => intro uR uC rc h; simp [specCommitRule] at h
  | cons p rest ih =>
    intro uR uC rc h
    rw [specCommitRule] at h
    by_cases hc : p.1 ∉ uR ∧ p.2 ∉ uC ∧ D p.1 p.2 ≤ gate2
    · rw [if_pos hc] at h
      rcases List.mem_cons.mp h with rfl | h2
      · exact List.mem_cons_self _ _
      · exact List.mem_cons_of_mem p (ih _ _ rc h2)
    · rw [if_neg hc] at h
      exact List.mem_cons_of_mem p (ih _ _ rc h)

theorem specCommitRule_rows (D : Nat → Nat → Int) :
    ∀ (pairs : List (Nat × Nat)) (uR uC : List Nat),
      (∀ r ∈ (specCommitRule D pairs uR uC).map Prod.fst, r ∉ uR) ∧
      ((specCommitRule D pairs uR uC).map Prod.fst).Nodup := by
  intro pairs
  induction pairs with
  | nil => intro uR uC; simp [specCommitRule]
  | cons p rest ih =>
    intro uR uC
    rw [specCommitRule]
    by_cases hc : p.1 ∉ uR ∧ p.2 ∉ uC ∧ D p.1 p.2 ≤ gate2
    · rw [if_pos hc]
      obtain ⟨ihA, ihN⟩ := ih (p.1 :: uR) (p.2 :: uC)
      constructor
      · intro r hr
        rcases List.mem_cons.mp hr with rfl | hr2
        · exact hc.1
        · intro hrU
          exact ihA r hr2 (List.mem_cons_of_mem p.1 hrU)
      · rw [List.map_cons, List.nodup_cons]
        refine ⟨?_, ihN⟩
        intro hmem
        exact ihA p.1 hmem (List.mem_cons_self p.1 uR)
    · rw [if_neg hc]
      exact ih uR uC

theorem find?_key_of_nodup :
    ∀ (cs : List (Nat × Nat)) (rc : Nat × Nat),
      rc ∈ cs → (cs.map Prod.fst).Nodup →
      cs.find? (fun p => p.1 == rc.1) = some rc := by
  intro cs
  induction cs with
  | nil => intro rc h; cases h
  | cons c cs ih =>
    intro rc hmem hnd
    rw [List.map_cons, List.nodup_cons] at hnd
    obtain ⟨hc1, hnd2⟩ := hnd
    rcases List.mem_cons.mp hmem with rfl | htl
    · exact List.find?_cons_of_pos _ (by simp)
    · have hne : ¬ (c.1 == rc.1) = true := by
        simp only [beq_iff_eq]
        intro hEq
        exact hc1 (hEq ▸ List.mem_map.mpr ⟨rc, htl, rfl⟩)
      rw [@List.find?_cons_of_neg _ (fun p => p.1 == rc.1) c cs hne]
      exact ih rc htl hnd2

theorem trackerUpdate_committed_row (trs : List (Nat × Tracker)) (nid : Nat)
    (obs : List Obs) (rc : Nat × Nat)
    (htrs : ¬ trs.isEmpty) (hobs : ¬ obs.isEmpty)
    (hc : rc ∈ commits trs obs) (hlt : rc.1 < trs.length) :
    ((trs.get ⟨rc.1, hlt⟩).1, trackerOfObs (obs.getD rc.2 dummyObs)) ∈
      (trackerUpdate trs nid obs).1 := by
  have hget : trs.get? rc.1 = some (trs.get ⟨rc.1, hlt⟩) := List.get?_eq_some.mpr ⟨hlt, rfl⟩
  have henum : (rc.1, trs.get ⟨rc.1, hlt⟩) ∈ trs.enum := mem_enum_of_get? hget
  have hnd : ((commits trs obs).map Prod.fst).Nodup := by
    rw [commits_eq_spec]
    exact (specCommitRule_rows (rowDist trs obs) (matchPairs trs obs) [] []).2
  have hfind : (commits trs obs).find? (fun p => p.1 == rc.1) = some rc :=
    find?_key_of_nodup (commits trs obs) rc hc hnd
  simp only [trackerUpdate, Bool.not_eq_true] at htrs hobs ⊢
  rw [if_neg (by simp [htrs]), if_neg (by simp [hobs])]
  rw [registerNew_fst]
  apply List.mem_append_left
  apply List.mem_filterMap.mpr
  refine ⟨(rc.1, trs.get ⟨rc.1, hlt⟩), henum, ?_⟩
  simp only [hfind]

theorem matchPairs_col (trs : List (Nat × Tracker)) (obs : List Obs) :
    ∀ rc ∈ matchPairs trs obs, rc.2 = argminCol trs obs rc.1 ∧ rc.1 ∈ sortedRows trs obs := by
  intro rc hrc
  obtain ⟨i, hi, hEq⟩ := List.mem_map.mp hrc
  rw [← hEq]
  exact ⟨rfl, hi⟩

/-! ## Claim theorems -/

/-- C8: once the state machine is in `MISSION_COMPLETE`, every further
tick, for any detection list, leaves the mission state, `phase1_decision`
and `phase2_decision` unchanged. -/
theorem mission_complete_terminal (s : St) (dets : List RawDet)
    (h : s.state = MState.complete) :
    (tick s dets).state = MState.complete ∧
    (tick s dets).phase1Decision = s.phase1Decision ∧
    (tick s dets).phase2Decision = s.phase2Decision := by
  have hs : (trackStage s dets).state = MState.complete := h
  have ht : tick s dets = stateStep (trackStage s dets) := rfl
  rw [ht, stateStep_complete _ hs]
  exact ⟨hs, rfl, rfl⟩

/-- Witness for C8 at a concrete completed state and a non-trivial
detection list. -/
theorem mission_complete_terminal_witness :
    (tick completeDemoSt [det 0 0 "go left"]).state = MState.complete ∧
    (tick completeDemoSt [det 0 0 "go left"]).phase1Decision = completeDemoSt.phase1Decision ∧
    (tick completeDemoSt [det 0 0 "go left"]).phase2Decision = completeDemoSt.phase2Decision :=
  mission_complete_terminal completeDemoSt [det 0 0 "go left"] rfl

/-- C6: on the tick in which phase 1 exits to `PHASE_2_SCANNING`, the
tracked-object set and the processed set are cleared and the id counter
is reset to its initial value 1. -/
theorem phase1_exit_resets_tracker (s : St) (dets : List RawDet)
    (h1 : s.state = MState.phase1) (h2 : (tick s dets).state = MState.phase2) :
    (tick s dets).trackers = [] ∧
    (tick s dets).processed = [] ∧
    (tick s dets).nextId = 1 := by
  have hs : (trackStage s dets).state = MState.phase1 := h1
  have ht : tick s dets = stateStep (trackStage s dets) := rfl
  rw [ht, stateStep_phase1 _ hs] at h2 ⊢
  by_cases hlen :
      (phase1Scan (trackStage s dets) (unprocessedOf (trackStage s dets))).votes.length = 5
  · rw [if_pos hlen]
    exact ⟨rfl, rfl, rfl⟩
  · rw [if_neg hlen] at h2
    obtain ⟨hst, -⟩ :=
      phase1Scan_spec (unprocessedOf (trackStage s dets)) (trackStage s dets)
    rw [hst, hs] at h2
    cases h2

/-- Witness for C6: a state with four votes accepts a fifth and resets. -/
theorem phase1_exit_resets_tracker_witness :
    (tick fourVotesSt [det 0 0 "go left"]).trackers = [] ∧
    (tick fourVotesSt [det 0 0 "go left"]).processed = [] ∧
    (tick fourVotesSt [det 0 0 "go left"]).nextId = 1 :=
  phase1_exit_resets_tracker fourVotesSt [det 0 0 "go left"] rfl (by decide)

/-- C7: in `PHASE_2_SCANNING`, a tick with at least one unprocessed
tracked object looks only at the earliest one (tracker iteration order):
a valid payload is marked processed, stored as `phase2_decision`, and the
state moves to `MISSION_COMPLETE` in the same tick; an invalid payload
leaves the whole state unchanged, so the object stays unprocessed and is
reconsidered on the next tick, and no other object is touched. -/
theorem phase2_considers_only_first_unprocessed (s : St) (dets : List RawDet)
    (id : Nat) (q : String) (rest : List (Nat × String))
    (h1 : s.state = MState.phase2)
    (h2 : unprocessedOf (trackStage s dets) = (id, q) :: rest) :
    (q ∈ VALID_PHASE_2_COMMANDS →
      tick s dets =
        { trackStage s dets with
          processed := addProc (trackStage s dets).processed id,
          phase2Decision := some q,
          state := MState.complete }) ∧
    (q ∉ VALID_PHASE_2_COMMANDS → tick s dets = trackStage s dets) := by
  have hs : (trackStage s dets).state = MState.phase2 := h1
  have ht : tick s dets = stateStep (trackStage s dets) := rfl
  constructor
  · intro hq
    rw [ht]
    simp only [stateStep, hs, h2]
    rw [if_pos hq]
  · intro hq
    rw [ht]
    simp only [stateStep, hs, h2]
    rw [if_neg hq]

/-- Witness for C7 at a concrete phase-2 state with one unprocessed
object holding a valid drop payload. -/
theorem phase2_considers_only_first_unprocessed_witness :
    ("drop left" ∈ VALID_PHASE_2_COMMANDS →
      tick phase2DemoSt [] =
        { trackStage phase2DemoSt [] with
          processed := addProc (trackStage phase2DemoSt []).processed 1,
          phase2Decision := some "drop left",
          state := MState.complete }) ∧
    ("drop left" ∉ VALID_PHASE_2_COMMANDS → tick phase2DemoSt [] = trackStage phase2DemoSt []) :=
  phase2_considers_only_first_unprocessed phase2DemoSt [] 1 "drop left" [] rfl (by decide)

/-- C9: a raw detection with an empty decoded payload is dropped before
tracking: it yields no observation, and the whole tick's result is the
same as if the detection were absent. -/
theorem empty_payload_excluded (s : St) (pre post : List RawDet) (d : RawDet)
    (h : d.data = "") :
    obsOf (pre ++ d :: post) = obsOf (pre ++ post) ∧
    tick s (pre ++ d :: post) = tick s (pre ++ post) := by
  have hobs : obsOf (pre ++ d :: post) = obsOf (pre ++ post) := by
    unfold obsOf
    rw [List.filterMap_append, List.filterMap_append, List.filterMap_cons]
    simp [h]
  refine ⟨hobs, ?_⟩
  have htr : trackStage s (pre ++ d :: post) = trackStage s (pre ++ post) := by
    unfold trackStage; rw [hobs]
  unfold tick; rw [htr]

/-- Witness for C9: an empty-payload detection in the middle of a list. -/
theorem empty_payload_excluded_witness :
    obsOf ([det 0 0 "go left"] ++ det 5 5 "" :: [det 90 0 "go right"]) =
      obsOf ([det 0 0 "go left"] ++ [det 90 0 "go right"]) ∧
    tick init ([det 0 0 "go left"] ++ det 5 5 "" :: [det 90 0 "go right"]) =
      tick init ([det 0 0 "go left"] ++ [det 90 0 "go right"]) :=
  empty_payload_excluded init [det 0 0 "go left"] [det 90 0 "go right"] (det 5 5 "") rfl

/-- C2 (counterexample): an unexpected error raised mid-tick does not
restore the pre-tick state: a fault after the tracking stage leaves the
new tracker registered, and a fault after the state-machine stage leaves
the accepted vote and the processed mark in place, contradicting the
claim that the state after a failing tick equals its value at the start
of that tick. -/
theorem tick_fault_mutations_survive :
    (runTickFaulty init [det 0 0 "go left"] 1).trackers ≠ init.trackers ∧
    (runTickFaulty init [det 0 0 "go left"] 2).votes ≠ init.votes ∧
    (runTickFaulty init [det 0 0 "go left"] 2).processed ≠ init.processed := by
  decide

/-- C2 (amended): an unexpected error is caught at the tick boundary and
the loop continues, but every mutation applied before the fault point
survives: the state after the failing tick is exactly the result of the
stages that completed, and it equals the start-of-tick state only when
the fault precedes the tracking stage. -/
theorem tick_fault_state_is_stage_prefix (s : St) (dets : List RawDet) :
    runTickFaulty s dets 0 = s ∧
    runTickFaulty s dets 1 = trackStage s dets ∧
    runTickFaulty s dets 2 = stateStep (trackStage s dets) ∧
    runTickFaulty s dets 3 = tick s dets :=
  ⟨rfl, rfl, rfl, rfl⟩

/-- C1 (counterexample): three ticks, each presenting two fresh valid
markers, drive the vote ledger to 6 entries — more than 5 — and the
machine stays in `PHASE_1_SCANNING` (the `== 5` exit check was jumped
over), contradicting the claimed cap and the claimed exit on reaching 5. -/
theorem phase1_ledger_can_exceed_five :
    (runList init overflowRun).votes.length = 6 ∧
    (runList init overflowRun).state = MState.phase1 := by
  decide

/-- C1 (amended): the vote ledger is append-only, and on any phase-1 tick
the machine exits to phase 2 exactly when the ledger length at the end of
the tick's vote loop is exactly 5; with several valid objects consumed in
a single tick the ledger can exceed 5, and then the exit never fires. -/
theorem phase1_append_only_exit_iff_five (s : St) (dets : List RawDet)
    (h : s.state = MState.phase1) :
    (∃ new, (tick s dets).votes = s.votes ++ new) ∧
    ((tick s dets).state = MState.phase2 ↔ (tick s dets).votes.length = 5) ∧
    ((tick s dets).state = MState.phase1 ∨ (tick s dets).state = MState.phase2) := by
  have hs : (trackStage s dets).state = MState.phase1 := h
  have ht : tick s dets = stateStep (trackStage s dets) := rfl
  obtain ⟨hst, -, -, -, -, new, hv⟩ :=
    phase1Scan_spec (unprocessedOf (trackStage s dets)) (trackStage s dets)
  rw [ht, stateStep_phase1 _ hs]
  by_cases hlen :
      (phase1Scan (trackStage s dets) (unprocessedOf (trackStage s dets))).votes.length = 5
  · rw [if_pos hlen]
    exact ⟨⟨new, hv⟩, ⟨fun _ => hlen, fun _ => rfl⟩, Or.inr rfl⟩
  · rw [if_neg hlen]
    refine ⟨⟨new, hv⟩, ⟨?_, fun hc => absurd hc hlen⟩, Or.inl (by rw [hst]; exact hs)⟩
    intro hc
    rw [hst, hs] at hc
    cases hc

/-- Witness for C1's amended statement at the initial state. -/
theorem phase1_append_only_exit_iff_five_witness :
    (∃ new, (tick init []).votes = init.votes ++ new) ∧
    ((tick init []).state = MState.phase2 ↔ (tick init []).votes.length = 5) ∧
    ((tick init []).state = MState.phase1 ∨ (tick init []).state = MState.phase2) :=
  phase1_append_only_exit_iff_five init [] rfl

/-- C5: a tracked object with no matching observation on consecutive
ticks is still present after exactly `MAX_FRAMES_UNSEEN` (20) such ticks
(with `frames_unseen = 20`) and is removed on the 21st; this holds on
ticks with an empty observation list (first two conjuncts, iterated) and
on ticks with other observations present (third conjunct: any uncommitted
row is aged and retained while within budget; final conjuncts: a concrete
two-tracker run where one tracker matches every tick and the other
expires exactly on tick 21). -/
theorem tracker_expiry_boundary (id nid : Nat) (c : Int × Int) (dd : String)
    (p : List (Int × Int)) (trs : List (Nat × Tracker)) (nid2 : Nat)
    (obs : List Obs) (i id2 : Nat) (t : Tracker)
    (hobs : obs ≠ []) (hget : trs.get? i = some (id2, t))
    (hun : i ∉ (commits trs obs).map Prod.fst)
    (hlive : t.unseen + 1 ≤ MAX_FRAMES_UNSEEN) :
    runEmptyTicks [(id, ⟨c, dd, p, 0⟩)] nid MAX_FRAMES_UNSEEN =
      [(id, ⟨c, dd, p, MAX_FRAMES_UNSEEN⟩)] ∧
    runEmptyTicks [(id, ⟨c, dd, p, 0⟩)] nid (MAX_FRAMES_UNSEEN + 1) = [] ∧
    (id2, { t with unseen := t.unseen + 1 }) ∈ (trackerUpdate trs nid2 obs).1 ∧
    (runList expiryDemoSt (List.replicate MAX_FRAMES_UNSEEN expiryDemoDet)).trackers.map
      Prod.fst = [1, 2] ∧
    (runList expiryDemoSt (List.replicate (MAX_FRAMES_UNSEEN + 1) expiryDemoDet)).trackers.map
      Prod.fst = [2] := by
  have hobs' : ¬ obs.isEmpty := by
    cases obs with
    | nil => exact absurd rfl hobs
    | cons a l => simp
  refine ⟨?_, ?_, trackerUpdate_unmatched_row trs nid2 obs i id2 t hobs' hget hun hlive,
    by decide, by decide⟩
  · rw [runEmptyTicks_single]
    simp [MAX_FRAMES_UNSEEN]
  · rw [runEmptyTicks_single]
    simp [MAX_FRAMES_UNSEEN]

/-- Witness for C5 at concrete inputs: a lone tracker under empty ticks,
and the first row of the expiry demo state left uncommitted against a
far-away observation. -/
theorem tracker_expiry_boundary_witness :
    runEmptyTicks [(1, ⟨(0, 0), "x", [], 0⟩)] 1 MAX_FRAMES_UNSEEN =
      [(1, ⟨(0, 0), "x", [], MAX_FRAMES_UNSEEN⟩)] ∧
    runEmptyTicks [(1, ⟨(0, 0), "x", [], 0⟩)] 1 (MAX_FRAMES_UNSEEN + 1) = [] ∧
    (1, (⟨(0, 0), "x", [], 1⟩ : Tracker)) ∈
      (trackerUpdate expiryDemoSt.trackers 3 [⟨(500, 0), "y", []⟩]).1 ∧
    (runList expiryDemoSt (List.replicate MAX_FRAMES_UNSEEN expiryDemoDet)).trackers.map
      Prod.fst = [1, 2] ∧
    (runList expiryDemoSt (List.replicate (MAX_FRAMES_UNSEEN + 1) expiryDemoDet)).trackers.map
      Prod.fst = [2] :=
  tracker_expiry_boundary 1 1 (0, 0) "x" [] expiryDemoSt.trackers 3
    [⟨(500, 0), "y", []⟩] 0 1 ⟨(0, 0), "x", [], 0⟩
    (by decide) rfl (by decide) (by decide)

/-- C10: destroying an expired tracker touches only the active set — the
tracking stage never changes the processed set (first conjunct), the id
counter never decreases (second), every id in an updated tracker set is
either pre-existing or fresh (at least the old counter, third); and in
the concrete run a marker that votes, expires after 21 unmatched ticks
and is re-detected gets the fresh id 2 (its old id 1 stays in the
processed set), is treated as new and unprocessed, and contributes a
second phase-1 vote (final conjuncts). -/
theorem expiry_fresh_id_revote (s : St) (dets : List RawDet)
    (trs : List (Nat × Tracker)) (nid : Nat) (obs : List Obs) (pq : Nat × Tracker)
    (hm : pq ∈ (trackerUpdate trs nid obs).1) :
    (trackStage s dets).processed = s.processed ∧
    nid ≤ (trackerUpdate trs nid obs).2 ∧
    (pq.1 ∈ trs.map Prod.fst ∨ nid ≤ pq.1) ∧
    (runList init revoteRun).votes = ["go left", "go left"] ∧
    (runList init revoteRun).processed = [1, 2] ∧
    (runList init revoteRun).trackers.map Prod.fst = [2] ∧
    (runList init revoteRun).nextId = 3 :=
  ⟨rfl, trackerUpdate_snd_ge trs nid obs, trackerUpdate_ids trs nid obs pq hm,
    by decide, by decide, by decide, by decide⟩

/-- C3: for every 5-entry vote ledger, the computed phase-1 decision
(`Counter(votes).most_common(1)[0][0]`) is a payload of maximal count in
the ledger, and any payload tying that count first occurs no earlier than
the decision; in particular the spec's two example ballots decide
"go left" and "go right" respectively. -/
theorem phase1_decision_majority_first_tiebreak (l : List String) (dec : String)
    (hlen : l.length = 5) (hdec : counterMostCommon l = some dec) :
    (dec ∈ l ∧
     (∀ v ∈ l, l.count v ≤ l.count dec) ∧
     (∀ v ∈ l, l.count v = l.count dec → l.indexOf dec ≤ l.indexOf v)) ∧
    counterMostCommon ["go left", "go right", "go left", "go right", "go straight"] =
      some "go left" ∧
    counterMostCommon ["go right", "go right", "go right", "go left", "go left"] =
      some "go right" := by
  refine ⟨?_, by decide, by decide⟩
  rcases hfo : firstOccs l with _ | ⟨d, ds⟩
  · exfalso
    cases l with
    | nil => simp at hlen
    | cons x xs =>
      have hx : x ∈ firstOccs (x :: xs) := (firstOccs_mem _ x).mpr (List.mem_cons_self x xs)
      rw [hfo] at hx
      cases hx
  · have hcm : counterMostCommon l = some (pickMax (fun v => l.count v) d ds) := by
      rw [counterMostCommon, hfo]
    rw [hcm] at hdec
    obtain rfl := Option.some.inj hdec
    have hpw : (d :: ds).Pairwise (fun a b => l.indexOf a < l.indexOf b) := by
      have h := firstOccs_pairwise l
      rwa [hfo] at h
    obtain ⟨hmem, hmax, htie⟩ :=
      pickMax_spec (fun v => l.count v) (fun v => l.indexOf v) ds d hpw
    have hsub : ∀ v ∈ l, v ∈ d :: ds := by
      intro v hv
      have h : v ∈ firstOccs l := (firstOccs_mem l v).mpr hv
      rwa [hfo] at h
    refine ⟨?_, ?_, ?_⟩
    · have h : pickMax (fun v => l.count v) d ds ∈ firstOccs l := by
        rw [hfo]
        exact hmem
      exact (firstOccs_mem l _).mp h
    · intro v hv
      exact hmax v (hsub v hv)
    · intro v hv hc
      exact htie v (hsub v hv) hc

/-- Witness for C3 at the spec's first example ballot. -/
theorem phase1_decision_majority_first_tiebreak_witness :
    (("go left" : String) ∈
        (["go left", "go right", "go left", "go right", "go straight"] : List String) ∧
     (∀ v ∈ (["go left", "go right", "go left", "go right", "go straight"] : List String),
        (["go left", "go right", "go left", "go right", "go straight"] : List String).count v ≤
        (["go left", "go right", "go left", "go right", "go straight"] : List String).count
          "go left") ∧
     (∀ v ∈ (["go left", "go right", "go left", "go right", "go straight"] : List String),
        (["go left", "go right", "go left", "go right", "go straight"] : List String).count v =
          (["go left", "go right", "go left", "go right", "go straight"] : List String).count
            "go left" →
        (["go left", "go right", "go left", "go right", "go straight"] : List String).indexOf
          "go left" ≤
        (["go left", "go right", "go left", "go right", "go straight"] : List String).indexOf
          v)) ∧
    counterMostCommon ["go left", "go right", "go left", "go right", "go straight"] =
      some "go left" ∧
    counterMostCommon ["go right", "go right", "go right", "go left", "go left"] =
      some "go right" :=
  phase1_decision_majority_first_tiebreak
    ["go left", "go right", "go left", "go right", "go straight"] "go left" rfl rfl

/-- C4: for every non-empty tracker set and non-empty observation list,
the update is the greedy nearest-centroid algorithm: the candidate rows
are exactly all rows, processed in ascending order of each row's minimum
(squared) distance (conjuncts 1–2); each candidate pair carries the
column achieving that row's minimum (conjunct 3); the committed pairs are
exactly those allowed by the spec's commit rule — neither row nor column
already used and distance within `MAX_DISTANCE` (conjunct 4); a committed
row keeps its id and gets the observation's centroid/payload/corners with
`frames_unseen` reset to 0 (conjunct 5, via `trackerOfObs`); and the
tracking stage never touches the processed flags (conjunct 6). -/
theorem tracker_update_greedy_nearest (trs : List (Nat × Tracker)) (nid : Nat)
    (obs : List Obs) (htrs : trs ≠ []) (hobs : obs ≠ []) :
    (sortedRows trs obs).Pairwise (fun a b => rowMin trs obs a ≤ rowMin trs obs b) ∧
    (sortedRows trs obs).Perm (List.range trs.length) ∧
    (∀ rc ∈ matchPairs trs obs, rc.2 = argminCol trs obs rc.1 ∧
      ∀ j < obs.length, rowDist trs obs rc.1 rc.2 ≤ rowDist trs obs rc.1 j) ∧
    commits trs obs = specCommitRule (rowDist trs obs) (matchPairs trs obs) [] [] ∧
    (∀ rc ∈ commits trs obs, ∃ h : rc.1 < trs.length,
      ((trs.get ⟨rc.1, h⟩).1, trackerOfObs (obs.getD rc.2 dummyObs)) ∈
        (trackerUpdate trs nid obs).1) ∧
    (∀ (s : St) (dets : List RawDet), (trackStage s dets).processed = s.processed) := by
  have htrs' : ¬ trs.isEmpty := by
    cases trs with
    | nil => exact absurd rfl htrs
    | cons a l => simp
  have hobs' : ¬ obs.isEmpty := by
    cases obs with
    | nil => exact absurd rfl hobs
    | cons a l => simp
  refine ⟨sortByKey_sorted _ _, sortByKey_perm _ _, ?_, commits_eq_spec trs obs, ?_,
    fun s dets => rfl⟩
  · intro rc hrc
    obtain ⟨hcol, -⟩ := matchPairs_col trs obs rc hrc
    refine ⟨hcol, ?_⟩
    intro j hj
    rw [hcol]
    exact argminCol_min trs obs rc.1 j hj
  · intro rc hrc
    have hmp : rc ∈ matchPairs trs obs := by
      rw [commits_eq_spec] at hrc
      exact specCommitRule_subset (rowDist trs obs) (matchPairs trs obs) [] [] rc hrc
    obtain ⟨-, hrow⟩ := matchPairs_col trs obs rc hmp
    have hlt : rc.1 < trs.length := by
      have hmem : rc.1 ∈ List.range trs.length :=
        (sortByKey_perm (rowMin trs obs) (List.range trs.length)).mem_iff.mp hrow
      exact List.mem_range.mp hmem
    exact ⟨hlt, trackerUpdate_committed_row trs nid obs rc htrs' hobs' hrc hlt⟩

/-- Witness for C4 at a concrete one-tracker, one-observation instance
whose distance (5) is within the gate. -/
theorem tracker_update_greedy_nearest_witness :
    (sortedRows greedyDemoTrs greedyDemoObs).Pairwise
      (fun a b => rowMin greedyDemoTrs greedyDemoObs a ≤ rowMin greedyDemoTrs greedyDemoObs b) ∧
    (sortedRows greedyDemoTrs greedyDemoObs).Perm (List.range greedyDemoTrs.length) ∧
    (∀ rc ∈ matchPairs greedyDemoTrs greedyDemoObs,
      rc.2 = argminCol greedyDemoTrs greedyDemoObs rc.1 ∧
      ∀ j < greedyDemoObs.length,
        rowDist greedyDemoTrs greedyDemoObs rc.1 rc.2 ≤
          rowDist greedyDemoTrs greedyDemoObs rc.1 j) ∧
    commits greedyDemoTrs greedyDemoObs =
      specCommitRule (rowDist greedyDemoTrs greedyDemoObs)
        (matchPairs greedyDemoTrs greedyDemoObs) [] [] ∧
    (∀ rc ∈ commits greedyDemoTrs greedyDemoObs, ∃ h : rc.1 < greedyDemoTrs.length,
      ((greedyDemoTrs.get ⟨rc.1, h⟩).1, trackerOfObs (greedyDemoObs.getD rc.2 dummyObs)) ∈
        (trackerUpdate greedyDemoTrs 2 greedyDemoObs).1) ∧
    (∀ (s : St) (dets : List RawDet), (trackStage s dets).processed = s.processed) :=
  tracker_update_greedy_nearest greedyDemoTrs 2 greedyDemoObs (by decide) (by decide)

/-- Witness for C10 at a concrete aged tracker. -/
theorem expiry_fresh_id_revote_witness :
    (trackStage init []).processed = init.processed ∧
    2 ≤ (trackerUpdate [(1, ⟨(0, 0), "x", [], 0⟩)] 2 []).2 ∧
    ((1 : Nat) ∈ [((1 : Nat), (⟨(0, 0), "x", [], 0⟩ : Tracker))].map Prod.fst ∨ 2 ≤ 1) ∧
    (runList init revoteRun).votes = ["go left", "go left"] ∧
    (runList init revoteRun).processed = [1, 2] ∧
    (runList init revoteRun).trackers.map Prod.fst = [2] ∧
    (runList init revoteRun).nextId = 3 :=
  expiry_fresh_id_revote init [] [(1, ⟨(0, 0), "x", [], 0⟩)] 2 []
    (1, ⟨(0, 0), "x", [], 1⟩) (by decide)

end ROV
